import Mathlib

/-!
Verification development for the file-based checkpoints module
(`notebook/services/contents/filecheckpoints.py`).

The module is embedded shallowly:

* Python strings are Lean `String`s; the string helpers used by the code
  (`str.strip('/')`, `str.rsplit('/', 1)`, `os.path.splitext`,
  `os.path.join`) are modelled as executable functions on `List Char`
  with `String` wrappers.
* Timestamps are `Int`s counting microseconds (CPython `datetime`
  arithmetic is exact at microsecond resolution); `timedelta` mirrors
  `FileCheckpoints.timedelta`, which truncates to whole seconds via
  `delta.days*24*60*60 + delta.seconds`.
* The filesystem is modelled at two levels.  For the slot-allocation
  functions (`get_checkpoint_ids`, `get_free_checkpoint_ids`,
  `list_checkpoints`, `create_checkpoint`), which touch only the
  checkpoint files of one fixed document path, the per-path view
  `cp : String → Option Int` maps a checkpoint id to the modification
  time of its file (`none` = no file); `os.path.isfile(checkpoint_path(id, path))`
  becomes `(cp id).isSome`.  For the path-level operations
  (`checkpoint_path`, `restore/rename/delete`, the Generic variants)
  the filesystem is `FS = String → Option File`, keyed by the resolved
  os path.
* Python `sorted(·, key=..., reverse=True)` is a stable descending
  sort; it is modelled by `List.insertionSort` with the total relation
  "later record's key ≤ earlier record's key", which is stable in the
  same sense.
-/

namespace FileCheckpoints

/-- Python `s.strip('/')` on a character list: drop all leading and all
trailing `'/'` characters. -/
def stripSlashesL (s : List Char) : List Char :=
  ((s.dropWhile (fun c => c = '/')).reverse.dropWhile (fun c => c = '/')).reverse

/-- Python `s.strip('/')` on strings. -/
def stripSlashes (s : String) : String :=
  ⟨stripSlashesL s.data⟩

/-- Python `s.rsplit('/', 1)` (split at the LAST `'/'`), returning the
pair (before, after).  When `s` contains no `'/'` the result is
`([], s)` (the callers below only apply it to strings that contain a
slash, where Python's two-element unpacking succeeds). -/
def rsplitSlash : List Char → List Char × List Char
  | [] => ([], [])
  | c :: cs =>
    if cs.any (fun x => x = '/') then
      ((rsplitSlash cs).1.cons c, (rsplitSlash cs).2)
    else if c = '/' then ([], cs)
    else ([], c :: cs)

/-- CPython `posixpath.splitext` restricted to a file name without
`'/'`: split at the last dot, unless every character before that dot is
itself a dot (then the extension is empty). -/
def splitextL (s : List Char) : List Char × List Char :=
  let rev := s.reverse
  let extRev := rev.takeWhile (fun c => ¬ c = '.')
  match rev.dropWhile (fun c => ¬ c = '.') with
  | [] => (s, [])
  | _ :: baseRev =>
    if baseRev.any (fun c => ¬ c = '.') then
      (baseRev.reverse, '.' :: extRev.reverse)
    else (s, [])

/-- CPython `posixpath.join a b` for a single pair. -/
def joinPathL (a b : List Char) : List Char :=
  if b.head? = some '/' then b
  else if a = [] ∨ a.getLast? = some '/' then a ++ b
  else a ++ '/' :: b

/-- `os.path.join` on strings. -/
def joinPath (a b : String) : String :=
  ⟨joinPathL a.data b.data⟩

/-- The three configurable traits of `FileCheckpoints`, with the
defaults declared in the source (`checkpoint_dir = '.ipynb_checkpoints'`,
`max_checkpoints = 5`, `min_seconds_between_checkpoints = 60`). -/
structure Config where
  checkpoint_dir : String := ".ipynb_checkpoints"
  max_checkpoints : Nat := 5
  min_seconds_between_checkpoints : Nat := 60
deriving DecidableEq

/-- One entry of `get_checkpoint_ids`: Python
`'{}{}'.format('checkpoint', i)`, i.e. `"checkpoint"` followed by the
decimal rendering of `i`. -/
def mkCheckpointId (i : Nat) : String :=
  "checkpoint" ++ Nat.repr i

/-- `FileCheckpoints.get_checkpoint_ids`: the ordered pool
`checkpoint0 .. checkpoint{N-1}`. -/
def get_checkpoint_ids (N : Nat) : List String :=
  (List.range N).map mkCheckpointId

/-- `FileCheckpoints.get_free_checkpoint_ids` on the per-path view
`cp`: the pool ids whose checkpoint file does not exist, in pool
order. -/
def get_free_checkpoint_ids (N : Nat) (cp : String → Option Int) : List String :=
  (get_checkpoint_ids N).filter (fun id => (cp id).isNone)

/-- `FileCheckpoints.timedelta`: timestamps are microseconds; the
Python code orders the two operands, subtracts, and returns
`delta.days*24*60*60 + delta.seconds`, i.e. the nonnegative difference
truncated to whole seconds. -/
def timedelta (timestamp1 timestamp2 : Int) : Nat :=
  (if timestamp1 > timestamp2 then timestamp1 - timestamp2
   else timestamp2 - timestamp1).toNat / 1000000

/-- The checkpoint model built by `FileCheckpoints.checkpoint_model`
(`{'id': ..., 'last_modified': ...}`). -/
structure CpRecord where
  id : String
  last_modified : Int
deriving DecidableEq

/-- The key relation of `sorted(checkpoints, key=lambda x: x['last_modified'], reverse=True)`:
`a` may precede `b` when `a`'s key is ≥ `b`'s. -/
def byDesc (a b : CpRecord) : Prop :=
  b.last_modified ≤ a.last_modified

instance : DecidableRel byDesc :=
  fun a b => Int.decLe b.last_modified a.last_modified

/-- `FileCheckpoints.list_checkpoints` on the per-path view: keep the
pool ids with an existing file, build their records, and stably sort
by `last_modified` descending. -/
def list_checkpoints (N : Nat) (cp : String → Option Int) : List CpRecord :=
  List.insertionSort byDesc
    ((get_checkpoint_ids N).filterMap (fun id => (cp id).map (fun m => ⟨id, m⟩)))

/-- The slot-selection logic of `FileCheckpoints.create_checkpoint`:
first free id if any, otherwise debounce/evict on the sorted list.
`none` models the `IndexError` raised when `max_checkpoints = 0`
(then `used_checkpoints[0]` faults). -/
def create_checkpoint_id (N thr : Nat) (cp : String → Option Int) (cur_time : Int) :
    Option String :=
  match get_free_checkpoint_ids N cp with
  | id :: _ => some id
  | [] =>
    match list_checkpoints N cp with
    | [] => none
    | u :: us =>
      if timedelta u.last_modified cur_time < thr then some u.id
      else some (us.getLastD u).id

/-- `FileCheckpoints.create_checkpoint` as a transition on the
per-path view: pick the slot, overwrite that slot's file (the new
file's modification time `m` is supplied by the environment), return
the new view and the id used. -/
def create_checkpoint (N thr : Nat) (cp : String → Option Int) (cur_time m : Int) :
    Option ((String → Option Int) × String) :=
  (create_checkpoint_id N thr cp cur_time).map
    (fun id => (fun j => if j = id then some m else cp j, id))

/-- A finite sequence of `create_checkpoint` calls on one path,
starting from no checkpoints; each event supplies the current clock
and the resulting file's modification time.  A `none` step (the
`max_checkpoints = 0` fault) leaves the view unchanged. -/
def run_creates (N thr : Nat) (events : List (Int × Int)) : String → Option Int :=
  events.foldl
    (fun cp e =>
      match create_checkpoint N thr cp e.1 e.2 with
      | some r => r.1
      | none => cp)
    (fun _ => none)

/-- `FileCheckpoints.checkpoint_path` at the character-list level.
`get_os_path` stands for the external `FileManagerMixin._get_os_path`
(resolution of a logical path against the root directory); `cp_dir` is
the configured checkpoint-directory name.  Mirrors the source:
strip the path, prepend `'/'`, `rsplit('/', 1)`, strip the parent,
`splitext` the name, compose `{base}-{id}{ext}`, then join
`get_os_path(parent)`, the checkpoint directory, and the file name. -/
def checkpoint_pathL (cp_dir : List Char) (get_os_path : List Char → List Char)
    (checkpoint_id path : List Char) : List Char :=
  let path := stripSlashesL path
  let pn := rsplitSlash ('/' :: path)
  let parent := stripSlashesL pn.1
  let be := splitextL pn.2
  let filename := be.1 ++ ('-' :: checkpoint_id) ++ be.2
  let os_path := get_os_path parent
  let cp_dir2 := joinPathL os_path cp_dir
  joinPathL cp_dir2 filename

/-- `FileCheckpoints.checkpoint_path` on strings. -/
def checkpoint_path (cfg : Config) (get_os_path : String → String)
    (checkpoint_id path : String) : String :=
  ⟨checkpoint_pathL cfg.checkpoint_dir.data
    (fun l => (get_os_path ⟨l⟩).data) checkpoint_id.data path.data⟩

/-- The same path computation in the words of the specification:
split the normalized document path at its last separator into parent
directory and file name, split the file name into base and extension,
and join `get_os_path(parent)`, the configured checkpoint-directory
name, and `{base}-{slot_id}{extension}`. -/
def checkpoint_path_specL (cp_dir : List Char) (get_os_path : List Char → List Char)
    (checkpoint_id path : List Char) : List Char :=
  let normalized := stripSlashesL path
  let parent := stripSlashesL (rsplitSlash normalized).1
  let name := (rsplitSlash normalized).2
  let be := splitextL name
  joinPathL (joinPathL (get_os_path parent) cp_dir)
    (be.1 ++ ('-' :: checkpoint_id) ++ be.2)

/-- Spec-side path computation on strings. -/
def checkpoint_path_spec (cfg : Config) (get_os_path : String → String)
    (checkpoint_id path : String) : String :=
  ⟨checkpoint_path_specL cfg.checkpoint_dir.data
    (fun l => (get_os_path ⟨l⟩).data) checkpoint_id.data path.data⟩

/-- A checkpoint file on disk: modification time (microseconds) and
content bytes. -/
structure File where
  mtime : Int
  content : String
deriving DecidableEq

/-- The filesystem, keyed by resolved os path. -/
def FS : Type :=
  String → Option File

/-- The two typed error kinds of the module: `no_such_checkpoint`
(HTTP 404, carrying path and checkpoint id) and the untyped failure of
a raw copy on a missing source. -/
inductive Err where
  | notFound (path checkpoint_id : String)
  | copyFailure
deriving DecidableEq

/-- Modelled from the spec: `FileManagerMixin._copy` (fileio.py, not
part of the sources) duplicates the source file's bytes to the
destination; on a missing source it fails with the underlying I/O
error, which is not the typed NotFound. -/
def copyFile (fs : FS) (src dest : String) : Except Err FS :=
  match fs src with
  | none => .error .copyFailure
  | some f => .ok (fun p => if p = dest then some f else fs p)

/-- `FileCheckpoints.restore_checkpoint`: copy the checkpoint file
over the live document's os path (`get_doc_os_path` stands for
`contents_mgr._get_os_path`).  No existence pre-check. -/
def restore_checkpoint (cfg : Config) (get_os_path get_doc_os_path : String → String)
    (fs : FS) (checkpoint_id path : String) : Except Err FS :=
  let src_path := checkpoint_path cfg get_os_path checkpoint_id path
  let dest_path := get_doc_os_path path
  copyFile fs src_path dest_path

/-- `FileCheckpoints.rename_checkpoint`: move the old location's file
to the new location when it exists, silently do nothing otherwise. -/
def rename_checkpoint (cfg : Config) (get_os_path : String → String)
    (fs : FS) (checkpoint_id old_path new_path : String) : FS :=
  let old_cp_path := checkpoint_path cfg get_os_path checkpoint_id old_path
  let new_cp_path := checkpoint_path cfg get_os_path checkpoint_id new_path
  if (fs old_cp_path).isSome then
    fun p =>
      if p = new_cp_path then fs old_cp_path
      else if p = old_cp_path then none
      else fs p
  else fs

/-- `FileCheckpoints.delete_checkpoint`: raise NotFound when the file
is missing, otherwise unlink exactly that file. -/
def delete_checkpoint (cfg : Config) (get_os_path : String → String)
    (fs : FS) (checkpoint_id path : String) : Except Err FS :=
  let path := stripSlashes path
  let cp_path := checkpoint_path cfg get_os_path checkpoint_id path
  if (fs cp_path).isSome then
    .ok (fun p => if p = cp_path then none else fs p)
  else .error (.notFound path checkpoint_id)

/-- `GenericFileCheckpoints.create_file_checkpoint`: the content-based
create.  It uses the single fixed checkpoint id `"checkpoint"`
(source comment: "only the one checkpoint ID"), resolves the path, and
saves the supplied content there (`_save_file` is external; the write
is modelled as storing the content with the save-time `t`).  Returns
the new filesystem and the id used. -/
def create_file_checkpoint (cfg : Config) (get_os_path : String → String)
    (fs : FS) (content : String) (t : Int) (path : String) : FS × String :=
  let path := stripSlashes path
  let checkpoint_id := "checkpoint"
  let os_checkpoint_path := checkpoint_path cfg get_os_path checkpoint_id path
  (fun p => if p = os_checkpoint_path then some ⟨t, content⟩ else fs p, checkpoint_id)

/-- `GenericFileCheckpoints.create_notebook_checkpoint`: same shape as
the file variant, with the serialized notebook as content. -/
def create_notebook_checkpoint (cfg : Config) (get_os_path : String → String)
    (fs : FS) (nb : String) (t : Int) (path : String) : FS × String :=
  let path := stripSlashes path
  let checkpoint_id := "checkpoint"
  let os_checkpoint_path := checkpoint_path cfg get_os_path checkpoint_id path
  (fun p => if p = os_checkpoint_path then some ⟨t, nb⟩ else fs p, checkpoint_id)

/-- `GenericFileCheckpoints.get_file_checkpoint`: check existence
first, raise NotFound if absent, then read (`_read_file` is external;
the read is modelled as returning the stored content). -/
def get_file_checkpoint (cfg : Config) (get_os_path : String → String)
    (fs : FS) (checkpoint_id path : String) : Except Err String :=
  let path := stripSlashes path
  let os_checkpoint_path := checkpoint_path cfg get_os_path checkpoint_id path
  match fs os_checkpoint_path with
  | none => .error (.notFound path checkpoint_id)
  | some f => .ok f.content

/-- `GenericFileCheckpoints.get_notebook_checkpoint`: check existence
first, raise NotFound if absent, then read the notebook. -/
def get_notebook_checkpoint (cfg : Config) (get_os_path : String → String)
    (fs : FS) (checkpoint_id path : String) : Except Err String :=
  let path := stripSlashes path
  let os_checkpoint_path := checkpoint_path cfg get_os_path checkpoint_id path
  match fs os_checkpoint_path with
  | none => .error (.notFound path checkpoint_id)
  | some f => .ok f.content

/-- Key order with a tie-break relation `Q`: `a` precedes `b` strictly
by modification time, or they tie and `Q a b` holds. -/
def keyOrder (Q : CpRecord → CpRecord → Prop) (a b : CpRecord) : Prop :=
  b.last_modified < a.last_modified ∨ (a.last_modified = b.last_modified ∧ Q a b)

/-- The slot-index tie-break: `a` comes from a lower pool index than `b`. -/
def slotBefore (N : Nat) (a b : CpRecord) : Prop :=
  ∃ i j, i < N ∧ j < N ∧ i < j ∧ a.id = mkCheckpointId i ∧ b.id = mkCheckpointId j

instance : IsTotal CpRecord byDesc :=
  ⟨fun a b => Int.le_total b.last_modified a.last_modified⟩

instance : IsTrans CpRecord byDesc :=
  ⟨fun _ _ _ hab hbc => le_trans hbc hab⟩

/-- A per-path view with one checkpoint (slot 0 holds a file modified
at 5 s): slot 1 onward free. -/
def cpFreeSample : String → Option Int :=
  fun id => if id = "checkpoint0" then some 5000000 else none

/-- A per-path view with a full pool of two slots (5 s and 9 s). -/
def cpFullSample : String → Option Int :=
  fun id => if id = "checkpoint0" then some 5000000
    else if id = "checkpoint1" then some 9000000 else none

/-- A per-path view with slots 0 and 2 of a three-slot pool in use. -/
def cpListSample : String → Option Int :=
  fun id => if id = "checkpoint0" then some 5
    else if id = "checkpoint2" then some 9 else none

/-- A filesystem holding one checkpoint file for `a.txt`, slot 0. -/
def fsSample : FS :=
  fun p => if p = ".ipynb_checkpoints/a-checkpoint0.txt" then some ⟨0, "data"⟩ else none

/-- Three create events: two rapid saves, then one much later. -/
def eventsSample : List (Int × Int) :=
  [(0, 0), (1000000000, 1000000000), (200000000000, 200000000000)]

theorem pairwise_keyOrder_orderedInsert (Q : CpRecord → CpRecord → Prop) (a : CpRecord) :
    ∀ l : List CpRecord, l.Pairwise (keyOrder Q) → (∀ b ∈ l, Q a b) →
      (List.orderedInsert byDesc a l).Pairwise (keyOrder Q)
  | [], _, _ => List.pairwise_singleton _ _
  | b :: l, hl, ha => by
    by_cases hab : byDesc a b
    · rw [List.orderedInsert, if_pos hab]
      refine List.Pairwise.cons ?_ hl
      intro c hc
      rcases List.mem_cons.mp hc with rfl | hcl
      · rcases lt_or_eq_of_le hab with h | h
        · exact Or.inl h
        · exact Or.inr ⟨h.symm, ha _ (List.mem_cons_self _ _)⟩
      · have hbc := List.rel_of_pairwise_cons hl hcl
        have hcb : c.last_modified ≤ b.last_modified := by
          rcases hbc with h | h
          · exact le_of_lt h
          · exact le_of_eq h.1.symm
        rcases lt_or_eq_of_le (le_trans hcb hab) with h | h
        · exact Or.inl h
        · exact Or.inr ⟨h.symm, ha _ (List.mem_cons_of_mem _ hcl)⟩
    · rw [List.orderedInsert, if_neg hab]
      have hba : a.last_modified < b.last_modified := lt_of_not_le hab
      refine List.Pairwise.cons ?_
        (pairwise_keyOrder_orderedInsert Q a l hl.of_cons
          (fun c hc => ha c (List.mem_cons_of_mem _ hc)))
      intro c hc
      rcases (List.mem_orderedInsert byDesc).mp hc with rfl | hcl
      · exact Or.inl hba
      · exact List.rel_of_pairwise_cons hl hcl

theorem pairwise_keyOrder_insertionSort (Q : CpRecord → CpRecord → Prop) :
    ∀ l : List CpRecord, l.Pairwise Q →
      (List.insertionSort byDesc l).Pairwise (keyOrder Q)
  | [], _ => List.Pairwise.nil
  | a :: l, h => by
    rw [List.insertionSort]
    refine pairwise_keyOrder_orderedInsert Q a _
      (pairwise_keyOrder_insertionSort Q l h.of_cons) ?_
    intro b hb
    exact List.rel_of_pairwise_cons h ((List.perm_insertionSort byDesc l).mem_iff.mp hb)

theorem mem_list_checkpoints (N : Nat) (cp : String → Option Int) (r : CpRecord) :
    r ∈ list_checkpoints N cp ↔
      ∃ i, i < N ∧ r.id = mkCheckpointId i ∧ cp (mkCheckpointId i) = some r.last_modified := by
  unfold list_checkpoints get_checkpoint_ids
  rw [(List.perm_insertionSort byDesc _).mem_iff, List.filterMap_map, List.mem_filterMap]
  constructor
  · rintro ⟨i, hi, hg⟩
    simp only [Function.comp_apply, Option.map_eq_some'] at hg
    rcases hg with ⟨m, hm, hr⟩
    subst hr
    exact ⟨i, List.mem_range.mp hi, rfl, hm⟩
  · rintro ⟨i, hiN, hid, hcp⟩
    refine ⟨i, List.mem_range.mpr hiN, ?_⟩
    simp only [Function.comp_apply, Option.map_eq_some']
    exact ⟨r.last_modified, hcp, by cases r with | mk id lm => cases hid; rfl⟩

theorem sorted_list_checkpoints (N : Nat) (cp : String → Option Int) :
    (list_checkpoints N cp).Pairwise byDesc :=
  List.sorted_insertionSort byDesc _

theorem pairwise_slotBefore_raw (N : Nat) (cp : String → Option Int) :
    ((get_checkpoint_ids N).filterMap
        (fun id => (cp id).map (fun m => (⟨id, m⟩ : CpRecord)))).Pairwise (slotBefore N) := by
  unfold get_checkpoint_ids
  rw [List.filterMap_map, List.pairwise_filterMap]
  have h0 : (List.range N).Pairwise (fun i j => i ∈ List.range N ∧ j ∈ List.range N ∧ i < j) :=
    List.Pairwise.and_mem.mp (List.pairwise_lt_range N)
  refine h0.imp ?_
  rintro i j ⟨hi, hj, hij⟩ r hr s hs
  simp only [Function.comp_apply, Option.mem_def, Option.map_eq_some'] at hr hs
  rcases hr with ⟨m, _, hr⟩
  rcases hs with ⟨m2, _, hs⟩
  subst hr; subst hs
  exact ⟨i, j, List.mem_range.mp hi, List.mem_range.mp hj, hij, rfl, rfl⟩

theorem pairwise_list_checkpoints (N : Nat) (cp : String → Option Int) :
    (list_checkpoints N cp).Pairwise (keyOrder (slotBefore N)) :=
  pairwise_keyOrder_insertionSort (slotBefore N) _ (pairwise_slotBefore_raw N cp)

theorem filter_range_head (q : Nat → Bool) :
    ∀ N j : Nat, j < N → q j = true → (∀ k, k < j → q k = false) →
      ((List.range N).filter q).head? = some j := by
  intro N
  induction N with
  | zero => exact fun j hj _ _ => absurd hj (Nat.not_lt_zero j)
  | succ n ih =>
    intro j hj hqj hmin
    rw [List.range_succ, List.filter_append]
    rcases Nat.lt_or_ge j n with h | h
    · rw [List.head?_append, ih j h hqj hmin]
      rfl
    · have hjn : j = n := Nat.le_antisymm (Nat.lt_succ_iff.mp hj) h
      subst hjn
      have hnil : (List.range j).filter q = [] :=
        List.filter_eq_nil_iff.mpr (fun a ha => by
          rw [hmin a (List.mem_range.mp ha)]
          exact fun hh => nomatch hh)
      rw [hnil, List.nil_append]
      simp [List.filter_cons, hqj]

theorem get_free_head (N : Nat) (cp : String → Option Int) (j : Nat)
    (hj : j < N) (hfree : (cp (mkCheckpointId j)).isNone = true)
    (hmin : ∀ k, k < j → (cp (mkCheckpointId k)).isNone = false) :
    (get_free_checkpoint_ids N cp).head? = some (mkCheckpointId j) := by
  unfold get_free_checkpoint_ids get_checkpoint_ids
  rw [List.filter_map, List.head?_map,
    filter_range_head ((fun id => (cp id).isNone) ∘ mkCheckpointId) N j hj hfree hmin]
  rfl

theorem get_free_eq_nil (N : Nat) (cp : String → Option Int)
    (hfull : ∀ i, i < N → (cp (mkCheckpointId i)).isSome = true) :
    get_free_checkpoint_ids N cp = [] := by
  unfold get_free_checkpoint_ids get_checkpoint_ids
  rw [List.filter_map]
  have hnil : (List.range N).filter ((fun id => (cp id).isNone) ∘ mkCheckpointId) = [] :=
    List.filter_eq_nil_iff.mpr (fun i hi => by
      rcases Option.isSome_iff_exists.mp (hfull i (List.mem_range.mp hi)) with ⟨x, hx⟩
      simp [Function.comp, hx])
  rw [hnil]
  rfl

theorem rel_getLastD_of_pairwise {α : Type} {R : α → α → Prop} :
    ∀ (a : α) (l : List α), (a :: l).Pairwise R →
      ∀ b ∈ a :: l, b = l.getLastD a ∨ R b (l.getLastD a)
  | a, [], _ => by
    intro b hb
    rcases List.mem_cons.mp hb with rfl | h
    · exact Or.inl rfl
    · exact absurd h (List.not_mem_nil b)
  | a, c :: t, h => by
    intro b hb
    rw [List.getLastD_cons]
    rcases List.mem_cons.mp hb with rfl | hbl
    · exact Or.inr (List.rel_of_pairwise_cons h (List.getLastD_mem_cons t c))
    · exact rel_getLastD_of_pairwise c t h.of_cons b hbl

theorem create_checkpoint_id_mem_pool (N thr : Nat) (cp : String → Option Int)
    (cur : Int) (id : String) (h : create_checkpoint_id N thr cp cur = some id) :
    id ∈ get_checkpoint_ids N := by
  unfold create_checkpoint_id at h
  cases hfree : get_free_checkpoint_ids N cp with
  | cons a t =>
    rw [hfree] at h
    have h2 : some a = some id := h
    injection h2 with h2
    subst h2
    have ha : a ∈ get_free_checkpoint_ids N cp := by
      rw [hfree]; exact List.mem_cons_self a t
    exact List.mem_of_mem_filter ha
  | nil =>
    rw [hfree] at h
    cases hlist : list_checkpoints N cp with
    | nil => rw [hlist] at h; exact absurd h (by exact fun hh => nomatch hh)
    | cons u us =>
      rw [hlist] at h
      have h2 : (if timedelta u.last_modified cur < thr then some u.id
          else some (us.getLastD u).id) = some id := h
      have humem : u ∈ list_checkpoints N cp := by
        rw [hlist]; exact List.mem_cons_self u us
      have hlmem : us.getLastD u ∈ list_checkpoints N cp := by
        rw [hlist]; exact List.getLastD_mem_cons us u
      by_cases hd : timedelta u.last_modified cur < thr
      · rw [if_pos hd] at h2
        injection h2 with h2
        subst h2
        rcases (mem_list_checkpoints N cp u).mp humem with ⟨i, hi, hid, _⟩
        rw [hid]
        exact List.mem_map_of_mem mkCheckpointId (List.mem_range.mpr hi)
      · rw [if_neg hd] at h2
        injection h2 with h2
        subst h2
        rcases (mem_list_checkpoints N cp _).mp hlmem with ⟨i, hi, hid, _⟩
        rw [hid]
        exact List.mem_map_of_mem mkCheckpointId (List.mem_range.mpr hi)

/-- C1: slot selection of `create_checkpoint`.  If some pool slot is
free, the lowest-indexed free slot is used.  Otherwise, with `m` the
most recent existing checkpoint's modification time, the selected slot
is one holding `m` when the truncated elapsed time
`timedelta m cur_time` is below the debounce threshold, and one
holding the minimal (least recent) modification time otherwise. -/
theorem create_checkpoint_slot_policy (N thr : Nat) (cp : String → Option Int)
    (cur : Int) (hN : 0 < N) :
    ((∃ i, i < N ∧ cp (mkCheckpointId i) = none) →
      ∃ j, j < N ∧ cp (mkCheckpointId j) = none ∧
        (∀ k, k < j → (cp (mkCheckpointId k)).isSome = true) ∧
        create_checkpoint_id N thr cp cur = some (mkCheckpointId j))
    ∧ ((∀ i, i < N → (cp (mkCheckpointId i)).isSome = true) →
      ∃ m, (∃ i, i < N ∧ cp (mkCheckpointId i) = some m) ∧
        (∀ i x, i < N → cp (mkCheckpointId i) = some x → x ≤ m) ∧
        (timedelta m cur < thr →
          ∃ id, create_checkpoint_id N thr cp cur = some id ∧ cp id = some m) ∧
        (¬ timedelta m cur < thr →
          ∃ id mmin, create_checkpoint_id N thr cp cur = some id ∧ cp id = some mmin ∧
            (∃ i, i < N ∧ cp (mkCheckpointId i) = some mmin) ∧
            (∀ i x, i < N → cp (mkCheckpointId i) = some x → mmin ≤ x))) := by
  constructor
  · rintro ⟨i0, hi0, hnone⟩
    have hP : ∃ k, (cp (mkCheckpointId k)).isNone = true := ⟨i0, by rw [hnone]; rfl⟩
    have hqj : (cp (mkCheckpointId (Nat.find hP))).isNone = true := Nat.find_spec hP
    have hmin : ∀ k, k < Nat.find hP → (cp (mkCheckpointId k)).isNone = false := by
      intro k hk
      have hnot := Nat.find_min hP hk
      cases hb : (cp (mkCheckpointId k)).isNone
      · rfl
      · exact absurd hb hnot
    have hjN : Nat.find hP < N :=
      Nat.lt_of_le_of_lt (Nat.find_min' hP (by rw [hnone]; rfl)) hi0
    have hhead := get_free_head N cp (Nat.find hP) hjN hqj hmin
    cases hfree : get_free_checkpoint_ids N cp with
    | nil => rw [hfree] at hhead; cases hhead
    | cons a t =>
      rw [hfree] at hhead
      have ha : a = mkCheckpointId (Nat.find hP) := by injection hhead
      refine ⟨Nat.find hP, hjN, Option.isNone_iff_eq_none.mp hqj, ?_, ?_⟩
      · intro k hk
        have hf := hmin k hk
        cases hb : cp (mkCheckpointId k) with
        | none => rw [hb] at hf; cases hf
        | some x => rfl
      · unfold create_checkpoint_id
        rw [hfree]
        show some a = some (mkCheckpointId (Nat.find hP))
        exact congrArg some ha
  · intro hfull
    have hfree := get_free_eq_nil N cp hfull
    rcases Option.isSome_iff_exists.mp (hfull 0 hN) with ⟨m0, hm0⟩
    have hmem0 : (⟨mkCheckpointId 0, m0⟩ : CpRecord) ∈ list_checkpoints N cp :=
      (mem_list_checkpoints N cp _).mpr ⟨0, hN, rfl, hm0⟩
    cases hlist : list_checkpoints N cp with
    | nil => rw [hlist] at hmem0; exact absurd hmem0 (List.not_mem_nil _)
    | cons u us =>
      have hsorted : (u :: us).Pairwise byDesc := hlist ▸ sorted_list_checkpoints N cp
      have humem : u ∈ list_checkpoints N cp := by
        rw [hlist]; exact List.mem_cons_self u us
      rcases (mem_list_checkpoints N cp u).mp humem with ⟨iu, hiu, hidu, hcpu⟩
      have hcpuid : cp u.id = some u.last_modified := by rw [hidu]; exact hcpu
      have hmax : ∀ i x, i < N → cp (mkCheckpointId i) = some x → x ≤ u.last_modified := by
        intro i x hi hx
        have hrm : (⟨mkCheckpointId i, x⟩ : CpRecord) ∈ list_checkpoints N cp :=
          (mem_list_checkpoints N cp _).mpr ⟨i, hi, rfl, hx⟩
        rw [hlist] at hrm
        rcases List.mem_cons.mp hrm with he | hm
        · exact le_of_eq (congrArg CpRecord.last_modified he)
        · exact List.rel_of_pairwise_cons hsorted hm
      refine ⟨u.last_modified, ⟨iu, hiu, hcpu⟩, hmax, ?_, ?_⟩
      · intro hdeb
        refine ⟨u.id, ?_, hcpuid⟩
        unfold create_checkpoint_id
        rw [hfree, hlist]
        show (if timedelta u.last_modified cur < thr then some u.id
          else some (us.getLastD u).id) = some u.id
        rw [if_pos hdeb]
      · intro hdeb
        have hlast : us.getLastD u ∈ list_checkpoints N cp := by
          rw [hlist]; exact List.getLastD_mem_cons us u
        rcases (mem_list_checkpoints N cp _).mp hlast with ⟨il, hil, hidl, hcpl⟩
        have hminlm : ∀ i x, i < N → cp (mkCheckpointId i) = some x →
            (us.getLastD u).last_modified ≤ x := by
          intro i x hi hx
          have hrm : (⟨mkCheckpointId i, x⟩ : CpRecord) ∈ list_checkpoints N cp :=
            (mem_list_checkpoints N cp _).mpr ⟨i, hi, rfl, hx⟩
          rw [hlist] at hrm
          rcases rel_getLastD_of_pairwise u us hsorted _ hrm with he | hrel
          · exact le_of_eq (congrArg CpRecord.last_modified he).symm
          · exact hrel
        refine ⟨(us.getLastD u).id, (us.getLastD u).last_modified, ?_, ?_,
          ⟨il, hil, hcpl⟩, hminlm⟩
        · unfold create_checkpoint_id
          rw [hfree, hlist]
          show (if timedelta u.last_modified cur < thr then some u.id
            else some (us.getLastD u).id) = some (us.getLastD u).id
          rw [if_neg hdeb]
        · rw [hidl]; exact hcpl

theorem pool_bound_aux (N thr : Nat) :
    ∀ (events : List (Int × Int)) (cp : String → Option Int),
      (∀ id, (cp id).isSome = true → id ∈ get_checkpoint_ids N) →
      ∀ id, ((events.foldl (fun cp e =>
          match create_checkpoint N thr cp e.1 e.2 with
          | some r => r.1
          | none => cp) cp) id).isSome = true → id ∈ get_checkpoint_ids N
  | [], _, hinv => hinv
  | e :: es, cp, hinv => by
    rw [List.foldl_cons]
    apply pool_bound_aux N thr es
    intro id hid
    cases hc : create_checkpoint N thr cp e.1 e.2 with
    | none => rw [hc] at hid; exact hinv id hid
    | some r =>
      rw [hc] at hid
      unfold create_checkpoint at hc
      rcases Option.map_eq_some'.mp hc with ⟨id0, hid0, hr⟩
      subst hr
      by_cases he : id = id0
      · subst he
        exact create_checkpoint_id_mem_pool N thr cp e.1 id hid0
      · have hid2 : (if id = id0 then some e.2 else cp id).isSome = true := hid
        rw [if_neg he] at hid2
        exact hinv id hid2

/-- C2: the pool bound.  Every successful `create_checkpoint` uses a
slot id from the fixed pool; after any finite sequence of creates
starting from no checkpoints only pool ids carry files; hence the
number of distinct ids with an existing checkpoint file never exceeds
`N = max_checkpoints`. -/
theorem checkpoint_pool_bound (N thr : Nat) (events : List (Int × Int)) :
    (∀ (cp : String → Option Int) (cur m : Int) (r : (String → Option Int) × String),
      create_checkpoint N thr cp cur m = some r → r.2 ∈ get_checkpoint_ids N)
    ∧ (∀ id, (run_creates N thr events id).isSome = true → id ∈ get_checkpoint_ids N)
    ∧ (∀ ids : List String, ids.Nodup →
        (∀ id ∈ ids, (run_creates N thr events id).isSome = true) → ids.length ≤ N) := by
  have hrun : ∀ id, (run_creates N thr events id).isSome = true → id ∈ get_checkpoint_ids N := by
    intro id hid
    exact pool_bound_aux N thr events (fun _ => none)
      (fun _ h => nomatch h) id hid
  refine ⟨?_, hrun, ?_⟩
  · intro cp cur m r hc
    unfold create_checkpoint at hc
    rcases Option.map_eq_some'.mp hc with ⟨id0, hid0, hr⟩
    subst hr
    exact create_checkpoint_id_mem_pool N thr cp cur id0 hid0
  · intro ids hnd hmem
    have hsub : ids.toFinset ⊆ (get_checkpoint_ids N).toFinset := by
      intro id hidmem
      rw [List.mem_toFinset] at hidmem ⊢
      exact hrun id (hmem id hidmem)
    calc ids.length = ids.toFinset.card := (List.toFinset_card_of_nodup hnd).symm
      _ ≤ (get_checkpoint_ids N).toFinset.card := Finset.card_le_card hsub
      _ ≤ (get_checkpoint_ids N).length := List.toFinset_card_le _
      _ = N := by simp [get_checkpoint_ids]

/-- C4: `list_checkpoints` returns exactly one record
`{id, last_modified}` per pool slot whose checkpoint file exists, and
the result is strictly sorted: records are ordered by `last_modified`
descending, with equal times broken deterministically by ascending
slot index (`keyOrder (slotBefore N)`). -/
theorem list_checkpoints_contract (N : Nat) (cp : String → Option Int) :
    (∀ r : CpRecord, r ∈ list_checkpoints N cp ↔
        ∃ i, i < N ∧ r.id = mkCheckpointId i ∧ cp (mkCheckpointId i) = some r.last_modified)
    ∧ (list_checkpoints N cp).Pairwise (keyOrder (slotBefore N)) :=
  ⟨fun r => mem_list_checkpoints N cp r, pairwise_list_checkpoints N cp⟩

/-- Witness: the record for slot 2 at time 9 is listed for
`cpListSample`, by the C4 contract. -/
theorem list_checkpoints_contract_witness :
    (⟨"checkpoint2", 9⟩ : CpRecord) ∈ list_checkpoints 3 cpListSample :=
  ((list_checkpoints_contract 3 cpListSample).1 _).mpr ⟨2, by decide, by decide, by decide⟩

theorem toDigitsCore_length_le (b : Nat) :
    ∀ (f n : Nat) (ds : List Char), ds.length ≤ (Nat.toDigitsCore b f n ds).length
  | 0, _, _ => le_refl _
  | f + 1, n, ds => by
    simp only [Nat.toDigitsCore]
    by_cases h : n / b = 0
    · rw [if_pos h]
      exact Nat.le_succ _
    · rw [if_neg h]
      exact le_trans
        (show ds.length ≤ ((n % b).digitChar :: ds).length from Nat.le_succ _)
        (toDigitsCore_length_le b f (n / b) ((n % b).digitChar :: ds))

theorem toDigitsCore_ne_nil (b f n : Nat) (ds : List Char) (hf : 0 < f) :
    Nat.toDigitsCore b f n ds ≠ [] := by
  cases f with
  | zero => exact absurd hf (lt_irrefl 0)
  | succ f =>
    intro hcontra
    have hlen : 0 < (Nat.toDigitsCore b (f + 1) n ds).length := by
      simp only [Nat.toDigitsCore]
      by_cases h : n / b = 0
      · rw [if_pos h]; exact Nat.succ_pos _
      · rw [if_neg h]
        exact Nat.lt_of_lt_of_le
          (show 0 < ((n % b).digitChar :: ds).length from Nat.succ_pos _)
          (toDigitsCore_length_le b f (n / b) ((n % b).digitChar :: ds))
    rw [hcontra] at hlen
    exact lt_irrefl 0 hlen

theorem repr_ne_empty (n : Nat) : Nat.repr n ≠ "" := by
  intro h
  have hdata : Nat.toDigitsCore 10 (n + 1) n [] = [] := congrArg String.data h
  exact toDigitsCore_ne_nil 10 (n + 1) n [] (Nat.succ_pos n) hdata

theorem mkCheckpointId_ne_checkpoint (i : Nat) : mkCheckpointId i ≠ "checkpoint" := by
  unfold mkCheckpointId
  intro h
  have hlen := congrArg String.length h
  rw [String.length_append] at hlen
  have h0 : (Nat.repr i).length = 0 := by omega
  have hempty : Nat.repr i = "" := by
    cases he : Nat.repr i with
    | mk data =>
      rw [he] at h0
      cases data with
      | nil => rfl
      | cons c cs => exact absurd h0 (by simp [String.length])
  exact repr_ne_empty i hempty

theorem checkpoint_not_mem_pool (N : Nat) : "checkpoint" ∉ get_checkpoint_ids N := by
  intro h
  unfold get_checkpoint_ids at h
  rcases List.mem_map.mp h with ⟨i, _, hi⟩
  exact mkCheckpointId_ne_checkpoint i hi

/-- C3 counterexample: a concrete content-based create uses slot id
`"checkpoint"`, which is not a member of the pool
`checkpoint0 .. checkpoint4` (default `max_checkpoints = 5`), so the
slot is not resolved through the slot-allocation policy. -/
theorem generic_create_nonpool_id_cx :
    (create_file_checkpoint {} (fun s => s) (fun _ => none) "data" 0 "a.txt").2
        = "checkpoint"
    ∧ "checkpoint" ∉ get_checkpoint_ids 5 :=
  ⟨rfl, by decide⟩

/-- C3 amended: both content-based creates always use the single fixed
id `"checkpoint"`, which belongs to no pool `checkpoint0 ..
checkpoint{N-1}`; they bypass the free-slot/debounce/eviction
policy. -/
theorem generic_create_fixed_id (cfg : Config) (g : String → String) (fs : FS)
    (content : String) (t : Int) (path : String) (N : Nat) :
    (create_file_checkpoint cfg g fs content t path).2 = "checkpoint"
    ∧ (create_notebook_checkpoint cfg g fs content t path).2 = "checkpoint"
    ∧ "checkpoint" ∉ get_checkpoint_ids N :=
  ⟨rfl, rfl, checkpoint_not_mem_pool N⟩

/-- Witness for the amended C3 on a concrete notebook create. -/
theorem generic_create_fixed_id_witness :
    (create_notebook_checkpoint {} (fun s => s) (fun _ => none) "nb" 0 "b.ipynb").2
      = "checkpoint" :=
  (generic_create_fixed_id {} (fun s => s) (fun _ => none) "nb" 0 "b.ipynb" 5).2.1

/-- C5 counterexample: the default checkpoint-directory name is
`.ipynb_checkpoints`, not `.checkpoints`. -/
theorem default_checkpoint_dir_cx :
    ¬ (({} : Config).checkpoint_dir = ".checkpoints") := by
  decide

/-- C5 amended: the defaults are checkpoint directory
`.ipynb_checkpoints`, pool size 5, debounce threshold 60 seconds, and
each is overridable by constructing a configuration with other
values. -/
theorem config_defaults (d : String) (n t : Nat) :
    ({} : Config).checkpoint_dir = ".ipynb_checkpoints"
    ∧ ({} : Config).max_checkpoints = 5
    ∧ ({} : Config).min_seconds_between_checkpoints = 60
    ∧ (Config.mk d n t).checkpoint_dir = d
    ∧ (Config.mk d n t).max_checkpoints = n
    ∧ (Config.mk d n t).min_seconds_between_checkpoints = t :=
  ⟨rfl, rfl, rfl, rfl, rfl, rfl⟩

/-- C6: `restore_checkpoint` never produces the typed NotFound error —
a missing checkpoint surfaces as the raw copy failure — whereas the
content-based retrievals check existence first and produce NotFound
(carrying the normalized path and the slot id) when the checkpoint
file is absent, before any read. -/
theorem restore_get_asymmetry (cfg : Config) (g gm : String → String)
    (fs : FS) (id path : String) :
    (∀ p i, restore_checkpoint cfg g gm fs id path ≠ Except.error (Err.notFound p i))
    ∧ (fs (checkpoint_path cfg g id path) = none →
        restore_checkpoint cfg g gm fs id path = Except.error Err.copyFailure)
    ∧ (fs (checkpoint_path cfg g id (stripSlashes path)) = none →
        get_file_checkpoint cfg g fs id path
            = Except.error (Err.notFound (stripSlashes path) id)
        ∧ get_notebook_checkpoint cfg g fs id path
            = Except.error (Err.notFound (stripSlashes path) id)) := by
  refine ⟨?_, ?_, ?_⟩
  · intro p i hcontra
    have h2 : (match fs (checkpoint_path cfg g id path) with
        | none => (Except.error Err.copyFailure : Except Err FS)
        | some f => Except.ok (fun q => if q = gm path then some f else fs q))
        = Except.error (Err.notFound p i) := hcontra
    cases hsrc : fs (checkpoint_path cfg g id path) with
    | none => rw [hsrc] at h2; simp at h2
    | some f => rw [hsrc] at h2; simp at h2
  · intro h
    show (match fs (checkpoint_path cfg g id path) with
        | none => (Except.error Err.copyFailure : Except Err FS)
        | some f => Except.ok (fun q => if q = gm path then some f else fs q))
        = Except.error Err.copyFailure
    rw [h]
  · intro h
    constructor
    · show (match fs (checkpoint_path cfg g id (stripSlashes path)) with
          | none => (Except.error (Err.notFound (stripSlashes path) id) : Except Err String)
          | some f => Except.ok f.content)
          = Except.error (Err.notFound (stripSlashes path) id)
      rw [h]
    · show (match fs (checkpoint_path cfg g id (stripSlashes path)) with
          | none => (Except.error (Err.notFound (stripSlashes path) id) : Except Err String)
          | some f => Except.ok f.content)
          = Except.error (Err.notFound (stripSlashes path) id)
      rw [h]

/-- Witness: restoring from an empty filesystem fails with the copy
failure, by the C6 theorem applied to a concrete call. -/
theorem restore_get_asymmetry_witness :
    restore_checkpoint {} (fun s => s) (fun s => s) (fun _ => none) "checkpoint0" "a.txt"
      = Except.error Err.copyFailure ∧
    get_file_checkpoint {} (fun s => s) (fun _ => none) "checkpoint0" "a.txt"
      = Except.error (Err.notFound "a.txt" "checkpoint0") :=
  ⟨(restore_get_asymmetry {} (fun s => s) (fun s => s)
      (fun _ => none) "checkpoint0" "a.txt").2.1 rfl,
   ((restore_get_asymmetry {} (fun s => s) (fun s => s)
      (fun _ => none) "checkpoint0" "a.txt").2.2 rfl).1⟩

/-- C7: `delete_checkpoint` fails with NotFound (carrying the
normalized path and the slot id) exactly when no checkpoint file
exists at the resolved location; on success it removes exactly that
file and changes nothing else. -/
theorem delete_checkpoint_contract (cfg : Config) (g : String → String) (fs : FS)
    (id path : String) :
    (delete_checkpoint cfg g fs id path
        = Except.error (Err.notFound (stripSlashes path) id)
      ↔ fs (checkpoint_path cfg g id (stripSlashes path)) = none)
    ∧ (∀ fs2, delete_checkpoint cfg g fs id path = Except.ok fs2 →
        fs2 (checkpoint_path cfg g id (stripSlashes path)) = none
        ∧ ∀ q, ¬ q = checkpoint_path cfg g id (stripSlashes path) → fs2 q = fs q) := by
  have hdef : delete_checkpoint cfg g fs id path
      = (if (fs (checkpoint_path cfg g id (stripSlashes path))).isSome then
          Except.ok (fun p =>
            if p = checkpoint_path cfg g id (stripSlashes path) then none else fs p)
        else Except.error (Err.notFound (stripSlashes path) id)) := rfl
  cases hf : fs (checkpoint_path cfg g id (stripSlashes path)) with
  | none =>
    have hdel : delete_checkpoint cfg g fs id path
        = Except.error (Err.notFound (stripSlashes path) id) := by
      rw [hdef, hf]; rfl
    refine ⟨iff_of_true hdel rfl, ?_⟩
    intro fs2 hok
    rw [hdel] at hok
    exact absurd hok (by simp)
  | some f =>
    have hdel : delete_checkpoint cfg g fs id path
        = Except.ok (fun p =>
            if p = checkpoint_path cfg g id (stripSlashes path) then none else fs p) := by
      rw [hdef, hf]; rfl
    refine ⟨iff_of_false ?_ ?_, ?_⟩
    · rw [hdel]; exact fun hh => by simp at hh
    · exact fun hh => by simp at hh
    · intro fs2 hok
      rw [hdel] at hok
      injection hok with hok
      subst hok
      exact ⟨if_pos rfl, fun q hq => if_neg hq⟩

/-- Witness: deleting a missing checkpoint raises NotFound, and a
successful delete clears the checkpoint file, by the C7 contract. -/
theorem delete_checkpoint_contract_witness :
    delete_checkpoint {} (fun s => s) (fun _ => (none : Option File)) "checkpoint0" "a.txt"
      = Except.error (Err.notFound "a.txt" "checkpoint0")
    ∧ (fun p => if p = ".ipynb_checkpoints/a-checkpoint0.txt"
        then (none : Option File) else fsSample p)
        ".ipynb_checkpoints/a-checkpoint0.txt" = none :=
  ⟨(delete_checkpoint_contract {} (fun s => s)
      (fun _ => none) "checkpoint0" "a.txt").1.mpr rfl,
   ((delete_checkpoint_contract {} (fun s => s)
      fsSample "checkpoint0" "a.txt").2 _ rfl).1⟩

/-- C8 amended: when a checkpoint file exists at the old path's
resolved slot location, `rename_checkpoint` moves it to the new path's
resolved location for the same slot id: afterwards a file (the old
one) exists at the new location, the old location is cleared provided
the two resolved locations differ (renaming onto the same resolved
location leaves the file in place), and every other location is
untouched; when no file exists at the old location the call is a
silent no-op. -/
theorem rename_checkpoint_contract (cfg : Config) (g : String → String) (fs : FS)
    (id old_path new_path : String) :
    ((fs (checkpoint_path cfg g id old_path)).isSome = true →
      rename_checkpoint cfg g fs id old_path new_path
          (checkpoint_path cfg g id new_path)
        = fs (checkpoint_path cfg g id old_path)
      ∧ (rename_checkpoint cfg g fs id old_path new_path
          (checkpoint_path cfg g id new_path)).isSome = true
      ∧ (¬ checkpoint_path cfg g id old_path = checkpoint_path cfg g id new_path →
          rename_checkpoint cfg g fs id old_path new_path
            (checkpoint_path cfg g id old_path) = none)
      ∧ ∀ q, ¬ q = checkpoint_path cfg g id old_path →
          ¬ q = checkpoint_path cfg g id new_path →
          rename_checkpoint cfg g fs id old_path new_path q = fs q)
    ∧ (fs (checkpoint_path cfg g id old_path) = none →
        rename_checkpoint cfg g fs id old_path new_path = fs) := by
  constructor
  · intro hsome
    have happ : ∀ p, rename_checkpoint cfg g fs id old_path new_path p
        = if p = checkpoint_path cfg g id new_path
            then fs (checkpoint_path cfg g id old_path)
          else if p = checkpoint_path cfg g id old_path then none
          else fs p := by
      intro p
      show (if (fs (checkpoint_path cfg g id old_path)).isSome = true then
          (fun p => if p = checkpoint_path cfg g id new_path
            then fs (checkpoint_path cfg g id old_path)
            else if p = checkpoint_path cfg g id old_path then none else fs p)
        else fs) p = _
      rw [hsome]
      rfl
    have h1 : rename_checkpoint cfg g fs id old_path new_path
        (checkpoint_path cfg g id new_path)
        = fs (checkpoint_path cfg g id old_path) := by
      rw [happ]; exact if_pos rfl
    refine ⟨h1, by rw [h1]; exact hsome, ?_, ?_⟩
    · intro hne
      rw [happ, if_neg hne]
      exact if_pos rfl
    · intro q hqo hqn
      rw [happ, if_neg hqn, if_neg hqo]
  · intro hnone
    show (if (fs (checkpoint_path cfg g id old_path)).isSome = true then
        (fun p => if p = checkpoint_path cfg g id new_path
          then fs (checkpoint_path cfg g id old_path)
          else if p = checkpoint_path cfg g id old_path then none else fs p)
      else fs) = fs
    rw [hnone]
    rfl

/-- C8 counterexample: renaming a document onto itself (old and new
paths resolve to the same location) keeps the checkpoint file at the
old path's resolved location, refuting the unconditional "afterwards
no file exists at the old location". -/
theorem rename_same_path_cx :
    (fsSample (checkpoint_path {} (fun s => s) "checkpoint0" "a.txt")).isSome = true
    ∧ (rename_checkpoint {} (fun s => s) fsSample "checkpoint0" "a.txt" "a.txt"
        (checkpoint_path {} (fun s => s) "checkpoint0" "a.txt")).isSome = true :=
  ⟨by decide, by decide⟩

/-- Witness: renaming `a.txt`'s slot-0 checkpoint to `b.txt` clears
the old location, by the C8 contract at a concrete filesystem. -/
theorem rename_checkpoint_contract_witness :
    rename_checkpoint {} (fun s => s) fsSample "checkpoint0" "a.txt" "b.txt"
        (checkpoint_path {} (fun s => s) "checkpoint0" "a.txt") = none
    ∧ (rename_checkpoint {} (fun s => s) fsSample "checkpoint0" "a.txt" "b.txt"
        (checkpoint_path {} (fun s => s) "checkpoint0" "b.txt")).isSome = true := by
  have h := (rename_checkpoint_contract {} (fun s => s) fsSample
    "checkpoint0" "a.txt" "b.txt").1 (by decide)
  exact ⟨h.2.2.1 (by decide), h.2.1⟩

theorem stripSlashesL_cons_slash (x : List Char) :
    stripSlashesL ('/' :: x) = stripSlashesL x := by
  unfold stripSlashesL
  rw [List.dropWhile_cons]
  simp

theorem rsplitSlash_no_slash :
    ∀ p : List Char, p.any (fun c => c = '/') = false → rsplitSlash p = ([], p)
  | [], _ => rfl
  | c :: cs, h => by
    rw [List.any_cons] at h
    rcases Bool.or_eq_false_iff.mp h with ⟨h1, h2⟩
    have hc : ¬ c = '/' := of_decide_eq_false h1
    simp [rsplitSlash, h2, hc]

theorem checkpoint_pathL_eq (cp_dir : List Char) (g : List Char → List Char)
    (id path : List Char) :
    checkpoint_pathL cp_dir g id path = checkpoint_path_specL cp_dir g id path := by
  simp only [checkpoint_pathL, checkpoint_path_specL]
  cases hp : (stripSlashesL path).any (fun c => c = '/') with
  | true =>
    have h1 : rsplitSlash ('/' :: stripSlashesL path)
        = ((rsplitSlash (stripSlashesL path)).1.cons '/',
           (rsplitSlash (stripSlashesL path)).2) := by
      simp [rsplitSlash, hp]
    rw [h1]
    simp only [List.cons_eq_cons]
    simp [stripSlashesL_cons_slash]
  | false =>
    have h0 := rsplitSlash_no_slash (stripSlashesL path) hp
    have h1 : rsplitSlash ('/' :: stripSlashesL path) = ([], stripSlashesL path) := by
      simp [rsplitSlash, hp]
    rw [h0, h1]

/-- C9: `checkpoint_path` computes exactly the path described by the
specification: the normalized document path is split at its last
separator into parent directory and file name, the file name is split
into base and extension, and the result joins the parent's os path,
the configured checkpoint-directory name, and the file name
`{base}-{slot_id}{extension}`. -/
theorem checkpoint_path_naming (cfg : Config) (g : String → String)
    (id path : String) :
    checkpoint_path cfg g id path = checkpoint_path_spec cfg g id path :=
  congrArg String.mk
    (checkpoint_pathL_eq cfg.checkpoint_dir.data
      (fun l => (g ⟨l⟩).data) id.data path.data)

theorem timedelta_natAbs (a b : Int) :
    timedelta a b = (a - b).natAbs / 1000000 := by
  unfold timedelta
  by_cases h : a > b
  · rw [if_pos h]
    congr 1
    omega
  · rw [if_neg h]
    congr 1
    omega

/-- C10: `timedelta` is symmetric and equals the absolute difference
truncated to whole seconds (sub-second microseconds are discarded);
consequently the debounce comparison in `create_checkpoint` treats a
most-recent modification time at distance `d` in the future of the
clock exactly like one at distance `d` in the past. -/
theorem timedelta_truncation_symmetry :
    (∀ a b : Int, timedelta a b = timedelta b a)
    ∧ (∀ a b : Int, timedelta a b = (a - b).natAbs / 1000000)
    ∧ (∀ a b : Int, (a - b).natAbs < 1000000 → timedelta a b = 0)
    ∧ (∀ (N thr : Nat) (cp : String → Option Int) (m d : Int),
        (∀ r, (list_checkpoints N cp).head? = some r → r.last_modified = m) →
        create_checkpoint_id N thr cp (m + d)
          = create_checkpoint_id N thr cp (m - d)) := by
  refine ⟨fun a b => ?_, timedelta_natAbs, fun a b h => ?_, ?_⟩
  · rw [timedelta_natAbs, timedelta_natAbs]
    congr 1
    omega
  · rw [timedelta_natAbs]
    exact Nat.div_eq_of_lt h
  · intro N thr cp m d hhead
    unfold create_checkpoint_id
    cases hfree : get_free_checkpoint_ids N cp with
    | cons a t => rfl
    | nil =>
      cases hlist : list_checkpoints N cp with
      | nil => rfl
      | cons u us =>
        have hu : u.last_modified = m := hhead u (by rw [hlist]; rfl)
        have hcond : timedelta u.last_modified (m + d)
            = timedelta u.last_modified (m - d) := by
          rw [timedelta_natAbs, timedelta_natAbs, hu]
          congr 1
          omega
        show (if timedelta u.last_modified (m + d) < thr then some u.id
            else some (us.getLastD u).id)
          = (if timedelta u.last_modified (m - d) < thr then some u.id
            else some (us.getLastD u).id)
        rw [hcond]

/-- Witness: on a full two-slot pool whose most recent checkpoint is
at 9 s, a clock half a second in the future selects the same slot as a
clock half a second in the past, by the C10 theorem. -/
theorem timedelta_truncation_symmetry_witness :
    create_checkpoint_id 2 60 cpFullSample (9000000 + 500000)
      = create_checkpoint_id 2 60 cpFullSample (9000000 - 500000) := by
  refine timedelta_truncation_symmetry.2.2.2 2 60 cpFullSample 9000000 500000 ?_
  intro r hr
  have hh : (list_checkpoints 2 cpFullSample).head?
      = some (⟨"checkpoint1", 9000000⟩ : CpRecord) := by decide
  rw [hh] at hr
  injection hr with hr
  cases hr
  rfl

/-- Witness: with slot 0 occupied and slot 1 free in a two-slot pool,
the C1 policy selects the lowest-indexed free slot, `checkpoint1`. -/
theorem create_checkpoint_slot_policy_witness :
    (0 : Nat) < 2
    ∧ (∃ i, i < 2 ∧ cpFreeSample (mkCheckpointId i) = none)
    ∧ (∃ j, j < 2 ∧ cpFreeSample (mkCheckpointId j) = none ∧
        (∀ k, k < j → (cpFreeSample (mkCheckpointId k)).isSome = true) ∧
        create_checkpoint_id 2 60 cpFreeSample 0 = some (mkCheckpointId j)) :=
  ⟨by decide, ⟨1, by decide, by decide⟩,
    (create_checkpoint_slot_policy 2 60 cpFreeSample 0 (by decide)).1
      ⟨1, by decide, by decide⟩⟩

/-- Witness: after three creates on a two-slot pool, the two pool ids
are all that can hold files, so at most two checkpoints exist, by the
C2 pool bound. -/
theorem checkpoint_pool_bound_witness :
    (["checkpoint0", "checkpoint1"] : List String).length ≤ 2 :=
  (checkpoint_pool_bound 2 60 eventsSample).2.2 ["checkpoint0", "checkpoint1"]
    (by decide) (by decide)

end FileCheckpoints
